import Mathlib

/-!
# XFCE volume mixer panel plugin: embedding of `volume-mixer-plugin.c`

The plugin keeps a registry (`sink_inputs`, a `GHashTable`) of the sink inputs
the sound server reports, renders one column per entry into `mixer_box`, and
sends volume requests when a slider moves.  The callbacks of the C file are
embedded as pure functions on an explicit plugin state; every request handed
to the PulseAudio client library is returned in a list.

Conventions of the embedding:

* a C string is the list of its characters (`CString`), a possibly-NULL
  `char *` is an `Option CString`;
* `guint32` / `uint32_t` / `pa_volume_t` values are natural numbers;
* a `gdouble` is the rational number it denotes, and every floating-point
  operation is the exact operation followed by `round64`, the binary64
  round-to-nearest-even rounding (each C operation is evaluated in double
  precision);
* library functions (GLib, GTK, PulseAudio) are embedded after their
  documented behaviour, under the name they have in C.
-/

namespace VolumeMixer

/-! ## C strings and the GLib string helpers -/

/-- A NUL-terminated UTF-8 C string, as the list of its characters.  All the
helpers below only inspect or rewrite ASCII characters, so working on
characters or on bytes gives the same text. -/
abbrev CString := List Char

/-- GLib `g_ascii_tolower`: maps `A`..`Z` to `a`..`z`, every other character to itself. -/
def g_ascii_tolower (c : Char) : Char :=
  if 'A' ≤ c ∧ c ≤ 'Z' then Char.ofNat (c.toNat - 'A'.toNat + 'a'.toNat) else c

/-- GLib `g_ascii_strdown (str, -1)`: a copy with every ASCII letter lowercased. -/
def g_ascii_strdown (str : CString) : CString :=
  str.map g_ascii_tolower

/-- GLib `g_strdelimit (string, delimiters, new_delim)`: every character of
`string` that occurs in `delimiters` is replaced by `new_delim`. -/
def g_strdelimit (string delimiters : CString) (new_delim : Char) : CString :=
  string.map (fun c => if c ∈ delimiters then new_delim else c)

/-- GLib `g_str_has_suffix (str, suffix)`: false when `str` is shorter than
`suffix`, otherwise compares the tail of `str` of that length with `suffix`. -/
def g_str_has_suffix (str suffix : CString) : Bool :=
  if str.length < suffix.length then false
  else str.drop (str.length - suffix.length) == suffix

/-- GLib `g_strndup (str, n)`: the first `n` characters of `str` (all of it when shorter). -/
def g_strndup (str : CString) (n : Nat) : CString :=
  str.take n

/-! ## PulseAudio property lists -/

/-- A `pa_proplist`, as the list of its textual properties.  Properties whose
value is not a well-formed string are invisible to `pa_proplist_gets` and are
left out. -/
abbrev pa_proplist := List (String × CString)

/-- PulseAudio `pa_proplist_gets`: the string stored under `key`, NULL when absent. -/
def pa_proplist_gets (p : pa_proplist) (key : String) : Option CString :=
  p.lookup key

/-- PulseAudio `pulse/proplist.h`: key of the icon name property. -/
def PA_PROP_APPLICATION_ICON_NAME : String := "application.icon_name"

/-- PulseAudio `pulse/proplist.h`: key of the desktop entry id property. -/
def PA_PROP_APPLICATION_ID : String := "application.id"

/-- PulseAudio `pulse/proplist.h`: key of the application name property. -/
def PA_PROP_APPLICATION_NAME : String := "application.name"

/-- The C test `s && s[0] != 0` on a possibly-NULL string. -/
def nonEmpty? : Option CString → Option CString
  | some (c :: cs) => some (c :: cs)
  | _ => none

/-- Source `extract_icon_name` (lines 160-193). -/
def extract_icon_name (proplist : pa_proplist) : Option CString :=
  match nonEmpty? (pa_proplist_gets proplist PA_PROP_APPLICATION_ICON_NAME) with
  | some icon_name => some icon_name
  | none =>
    match nonEmpty? (pa_proplist_gets proplist PA_PROP_APPLICATION_ID) with
    | some app_id =>
      if g_str_has_suffix app_id ".desktop".toList then
        some (g_strndup app_id (app_id.length - 8))
      else
        some app_id
    | none =>
      match nonEmpty? (pa_proplist_gets proplist PA_PROP_APPLICATION_NAME) with
      | some icon_name => some (g_strdelimit (g_ascii_strdown icon_name) " ".toList '-')
      | none => none

/-! ## The fallback chain as the specification words it -/

/-- Specification wording: a property is usable when it is present and non-empty. -/
def presentNonEmpty (p : pa_proplist) (key : String) : Option CString :=
  (p.lookup key).filter (fun s => s ≠ [])

/-- Specification wording: remove one trailing `.desktop` when the id ends with it. -/
def stripDesktopSuffix (id : CString) : CString :=
  if ".desktop".toList <:+ id then id.rdrop 8 else id

/-- Specification wording: ASCII letters lowercased, every space replaced by `-`. -/
def lowerHyphenate (name : CString) : CString :=
  name.map (fun c =>
    if c = ' ' then '-'
    else if 'A'.toNat ≤ c.toNat ∧ c.toNat ≤ 'Z'.toNat then Char.ofNat (c.toNat + 32)
    else c)

/-- Specification wording of the icon-hint fallback chain. -/
def iconHintSpec (p : pa_proplist) : Option CString :=
  match presentNonEmpty p "application.icon_name" with
  | some icon => some icon
  | none =>
    match presentNonEmpty p "application.id" with
    | some id => some (stripDesktopSuffix id)
    | none =>
      match presentNonEmpty p "application.name" with
      | some name => some (lowerHyphenate name)
      | none => none

/-! ## binary64 arithmetic -/

/-- A `gdouble`, as the rational number it denotes. -/
abbrev gdouble := ℚ

/-- Exponent of the unit in the last place of the binary64 binade that holds
`x > 0`: 53 significant bits, least exponent `-1074` (subnormal numbers). -/
def ulpExp (x : ℚ) : ℤ :=
  max (Int.log 2 x - 52) (-1074)

/-- Nearest integer, ties to the even one. -/
def roundHalfEven (q : ℚ) : ℤ :=
  if q - ⌊q⌋ < 1 / 2 then ⌊q⌋
  else if 1 / 2 < q - ⌊q⌋ then ⌊q⌋ + 1
  else if ⌊q⌋ % 2 = 0 then ⌊q⌋ else ⌊q⌋ + 1

/-- IEEE-754 binary64 round-to-nearest-even of a non-negative real below the
overflow threshold: the nearest multiple of the unit in the last place. -/
def round64Pos (x : ℚ) : ℚ :=
  (roundHalfEven (x / (2 : ℚ) ^ ulpExp x) : ℚ) * (2 : ℚ) ^ ulpExp x

/-- IEEE-754 binary64 round-to-nearest-even, symmetric in the sign.  Overflow
to infinity is not represented: every operand in this program is bounded by
`100 * 65536`. -/
def round64 (x : ℚ) : gdouble :=
  if x < 0 then - round64Pos (-x) else round64Pos x

/-- A rational is a finite binary64 value when it is a multiple of the unit
in the last place of its own binade and below `2 ^ 1024` in magnitude. -/
def isDouble (x : ℚ) : Prop :=
  |x| < (2 : ℚ) ^ (1024 : ℕ) ∧ (|x| / (2 : ℚ) ^ ulpExp |x|).den = 1

instance (x : ℚ) : Decidable (isDouble x) := by
  unfold isDouble; infer_instance

/-- C `a * b` on doubles. -/
def gdouble_mul (a b : gdouble) : gdouble := round64 (a * b)

/-- C `a / b` on doubles (`b` non-zero). -/
def gdouble_div (a b : gdouble) : gdouble := round64 (a / b)

/-- C conversion `(gdouble) n` of a 32-bit unsigned integer: exact. -/
def gdouble_of_uint32 (n : Nat) : gdouble := (n : ℚ)

/-- C conversion `(pa_volume_t) x` of a double in the range of `uint32_t`:
truncation toward zero. -/
def pa_volume_of_gdouble (x : gdouble) : Nat :=
  (⌊x⌋).toNat % 2 ^ 32

/-! ## PulseAudio volumes -/

/-- PulseAudio `pulse/volume.h`, `PA_VOLUME_NORM`: the nominal 100% volume. -/
def PA_VOLUME_NORM : Nat := 0x10000

/-- PulseAudio `PA_VOLUME_MUTED`. -/
def PA_VOLUME_MUTED : Nat := 0

/-- PulseAudio `PA_VOLUME_MAX`, `UINT32_MAX / 2`. -/
def PA_VOLUME_MAX : Nat := 4294967295 / 2

/-- PulseAudio `pulse/sample.h`, `PA_CHANNELS_MAX`. -/
def PA_CHANNELS_MAX : Nat := 32

/-- PulseAudio `pa_cvolume`: a channel count and the array of per-channel
volumes, of which the first `channels` slots are meaningful. -/
structure pa_cvolume where
  channels : Nat
  values : List Nat
deriving DecidableEq

/-- PulseAudio `pa_channels_valid`. -/
def pa_channels_valid (channels : Nat) : Bool :=
  decide (0 < channels) && decide (channels ≤ PA_CHANNELS_MAX)

/-- PulseAudio `PA_CLAMP_VOLUME`. -/
def PA_CLAMP_VOLUME (v : Nat) : Nat :=
  if v < PA_VOLUME_MUTED then PA_VOLUME_MUTED
  else if PA_VOLUME_MAX < v then PA_VOLUME_MAX else v

/-- PulseAudio `pa_cvolume_valid`: a valid channel count and every meaningful
slot present and at most `PA_VOLUME_MAX`. -/
def pa_cvolume_valid (a : pa_cvolume) : Bool :=
  pa_channels_valid a.channels && decide (a.channels ≤ a.values.length)
    && (a.values.take a.channels).all (fun v => decide (v ≤ PA_VOLUME_MAX))

/-- PulseAudio `pa_cvolume_set (a, channels, v)`: asserts that `channels` is
a valid count (`none` is the failed assertion, which aborts the process),
stores it, and writes the clamped `v` into the first `channels` slots. -/
def pa_cvolume_set (a : pa_cvolume) (channels v : Nat) : Option pa_cvolume :=
  if pa_channels_valid channels then
    some { channels := channels
           values := List.replicate channels (PA_CLAMP_VOLUME v) ++ a.values.drop channels }
  else none

/-- PulseAudio `pa_cvolume_avg`: `PA_VOLUME_MUTED` for an invalid volume,
otherwise the integer mean of the meaningful slots. -/
def pa_cvolume_avg (a : pa_cvolume) : Nat :=
  if pa_cvolume_valid a then (a.values.take a.channels).sum / a.channels
  else PA_VOLUME_MUTED

/-! ## GLib hash table -/

/-- A `GHashTable` keyed by `GUINT_TO_POINTER (index)` with `g_direct_hash`
and `g_direct_equal`: the list of its key/value pairs, in the order in which
a `GHashTableIter` visits them.  GLib does not specify where in that order a
new key appears; nothing below depends on it. -/
abbrev GHashTable (V : Type) := List (Nat × V)

/-- GLib `g_hash_table_new_full`: the empty table. -/
def g_hash_table_new_full {V : Type} : GHashTable V := []

/-- GLib `g_hash_table_size`. -/
def g_hash_table_size {V : Type} (t : GHashTable V) : Nat := t.length

/-- GLib `g_hash_table_insert`: when the key is already present its value is
replaced (the old value is handed to the destroy notifier), otherwise the
pair is added. -/
def g_hash_table_insert {V : Type} : GHashTable V → Nat → V → GHashTable V
  | [], key, value => [(key, value)]
  | (k, v) :: rest, key, value =>
    if k = key then (k, value) :: rest
    else (k, v) :: g_hash_table_insert rest key value

/-- GLib `g_hash_table_remove`: drops the pair stored under `key`, if any. -/
def g_hash_table_remove {V : Type} (t : GHashTable V) (key : Nat) : GHashTable V :=
  t.filter (fun kv => decide (kv.1 ≠ key))

/-- GLib `g_hash_table_remove_all`. -/
def g_hash_table_remove_all {V : Type} (_t : GHashTable V) : GHashTable V := []

/-- GLib `g_hash_table_lookup`. -/
def g_hash_table_lookup {V : Type} (t : GHashTable V) (key : Nat) : Option V :=
  t.lookup key

/-! ## Plugin data (lines 17-46) -/

/-- PulseAudio `pa_sink_input_info`, the fields the plugin reads. -/
structure pa_sink_input_info where
  index : Nat
  name : Option CString
  proplist : pa_proplist
  volume : pa_cvolume
  sink : Nat
deriving DecidableEq

/-- Source `SinkInputInfo` (lines 38-46).  The back pointer `plugin` is the
plugin state every handler receives explicitly. -/
structure SinkInputInfo where
  index : Nat
  name : Option CString
  app_name : Option CString
  icon_name : Option CString
  volume : pa_cvolume
  sink : Nat
deriving DecidableEq

/-- A child of `mixer_box`: a plain label, or one channel column (icon,
label, slider preloaded with a value, and the entry its slider is bound to). -/
inductive Widget where
  | label (text : CString)
  | column (icon_name : CString) (label : CString) (slider : gdouble) (info : SinkInputInfo)
deriving DecidableEq

/-- A request handed to the PulseAudio client library. -/
inductive Request where
  | get_sink_input_info_list
  | get_sink_input_info (idx : Nat)
  | set_sink_input_volume (idx : Nat) (volume : pa_cvolume)
deriving DecidableEq

/-- Source `VolumeMixerPlugin` (lines 17-30): `popup_visible` is the visible
flag of `popup_window`, `mixer_box` the children of the box in packing order,
`pa_context` tells whether the context pointer is non-NULL.  Window geometry
and the panel button are not represented. -/
structure VolumeMixerPlugin where
  popup_visible : Bool
  mixer_box : List Widget
  pa_context : Bool
  connected : Bool
  sink_inputs : GHashTable SinkInputInfo
deriving DecidableEq

/-! ## GTK container operations -/

/-- GTK `gtk_container_foreach (box, gtk_widget_destroy, NULL)`: no child is left. -/
def gtk_container_destroy_children (_box : List Widget) : List Widget := []

/-- GTK `gtk_box_pack_start`: the child is added after the children already packed. -/
def gtk_box_pack_start (box : List Widget) (child : Widget) : List Widget :=
  box ++ [child]

/-- GTK `gtk_range_set_value` on a scale created with range `0.0 .. 100.0`:
the value is clamped into the range. -/
def gtk_range_set_value (value : gdouble) : gdouble :=
  if value < 0 then 0 else if 100 < value then 100 else value

/-! ## Handlers -/

/-- Source `on_volume_changed` (lines 63-78); `value` is what
`gtk_range_get_value` returns.  The result is the list of requests sent,
`none` when the assertion inside `pa_cvolume_set` fails. -/
def on_volume_changed (mixer : VolumeMixerPlugin) (info : SinkInputInfo) (value : gdouble) :
    Option (List Request) :=
  if !mixer.pa_context || !mixer.connected then some []
  else
    match pa_cvolume_set info.volume info.volume.channels
        (pa_volume_of_gdouble
          (gdouble_div (gdouble_mul value (gdouble_of_uint32 PA_VOLUME_NORM)) 100)) with
    | some new_volume => some [Request.set_sink_input_volume info.index new_volume]
    | none => none

/-- Local `current_volume` of `create_app_volume_slider` (line 113). -/
def current_volume (info : SinkInputInfo) : gdouble :=
  gdouble_div (gdouble_mul (gdouble_of_uint32 (pa_cvolume_avg info.volume)) 100)
    (gdouble_of_uint32 PA_VOLUME_NORM)

/-- Source `create_app_volume_slider` (lines 87-127). -/
def create_app_volume_slider (info : SinkInputInfo) : Widget :=
  Widget.column
    (match nonEmpty? info.icon_name with
     | some icon_name => icon_name
     | none => "audio-volume-high-symbolic".toList)
    (match info.app_name with
     | some app_name => app_name
     | none => "Unknown Application".toList)
    (gtk_range_set_value (current_volume info))
    info

/-- Source `update_mixer_ui` (lines 130-157). -/
def update_mixer_ui (mixer : VolumeMixerPlugin) : VolumeMixerPlugin :=
  let box := gtk_container_destroy_children mixer.mixer_box
  { mixer with
    mixer_box :=
      if g_hash_table_size mixer.sink_inputs = 0 then
        gtk_box_pack_start box (Widget.label "No applications playing audio".toList)
      else
        mixer.sink_inputs.foldl
          (fun b kv => gtk_box_pack_start b (create_app_volume_slider kv.2)) box }

/-- Source `sink_input_info_callback` (lines 196-218). -/
def sink_input_info_callback (mixer : VolumeMixerPlugin) (i : Option pa_sink_input_info)
    (eol : Int) : VolumeMixerPlugin :=
  if eol > 0 then update_mixer_ui mixer
  else
    match i with
    | none => mixer
    | some i =>
      let info : SinkInputInfo :=
        { index := i.index
          name := i.name
          app_name := pa_proplist_gets i.proplist PA_PROP_APPLICATION_NAME
          icon_name := extract_icon_name i.proplist
          volume := i.volume
          sink := i.sink }
      { mixer with sink_inputs := g_hash_table_insert mixer.sink_inputs i.index info }

/-- PulseAudio `pa_context_state_t`. -/
inductive pa_context_state_t where
  | PA_CONTEXT_UNCONNECTED
  | PA_CONTEXT_CONNECTING
  | PA_CONTEXT_AUTHORIZING
  | PA_CONTEXT_SETTING_NAME
  | PA_CONTEXT_READY
  | PA_CONTEXT_FAILED
  | PA_CONTEXT_TERMINATED
deriving DecidableEq

/-- Source `context_state_callback` (lines 221-240). -/
def context_state_callback (mixer : VolumeMixerPlugin) (state : pa_context_state_t) :
    VolumeMixerPlugin × List Request :=
  match state with
  | .PA_CONTEXT_READY => ({ mixer with connected := true }, [Request.get_sink_input_info_list])
  | .PA_CONTEXT_FAILED => ({ mixer with connected := false }, [])
  | .PA_CONTEXT_TERMINATED => ({ mixer with connected := false }, [])
  | _ => (mixer, [])

/-- PulseAudio `pulse/def.h`, `pa_subscription_event_type_t`: facility sink input. -/
def PA_SUBSCRIPTION_EVENT_SINK_INPUT : Nat := 0x0002

/-- PulseAudio `pulse/def.h`: mask that selects the facility of an event. -/
def PA_SUBSCRIPTION_EVENT_FACILITY_MASK : Nat := 0x000F

/-- PulseAudio `pulse/def.h`: event type new. -/
def PA_SUBSCRIPTION_EVENT_NEW : Nat := 0x0000

/-- PulseAudio `pulse/def.h`: event type change. -/
def PA_SUBSCRIPTION_EVENT_CHANGE : Nat := 0x0010

/-- PulseAudio `pulse/def.h`: event type remove. -/
def PA_SUBSCRIPTION_EVENT_REMOVE : Nat := 0x0020

/-- PulseAudio `pulse/def.h`: mask that selects the type of an event. -/
def PA_SUBSCRIPTION_EVENT_TYPE_MASK : Nat := 0x0030

/-- Source `subscribe_callback` (lines 243-257). -/
def subscribe_callback (mixer : VolumeMixerPlugin) (type idx : Nat) :
    VolumeMixerPlugin × List Request :=
  if type &&& PA_SUBSCRIPTION_EVENT_FACILITY_MASK = PA_SUBSCRIPTION_EVENT_SINK_INPUT then
    if type &&& PA_SUBSCRIPTION_EVENT_TYPE_MASK = PA_SUBSCRIPTION_EVENT_REMOVE then
      (update_mixer_ui
        { mixer with sink_inputs := g_hash_table_remove mixer.sink_inputs idx }, [])
    else
      (mixer, [Request.get_sink_input_info idx])
  else (mixer, [])

/-- Source `toggle_popup` (lines 279-303). -/
def toggle_popup (mixer : VolumeMixerPlugin) : VolumeMixerPlugin × List Request :=
  if mixer.popup_visible then
    ({ mixer with popup_visible := false }, [])
  else
    let sink_inputs := g_hash_table_remove_all mixer.sink_inputs
    let box := gtk_container_destroy_children mixer.mixer_box
    let box := gtk_box_pack_start box (Widget.label "Loadingâ€¦".toList)
    ({ mixer with sink_inputs := sink_inputs, mixer_box := box, popup_visible := true },
      if mixer.pa_context && mixer.connected then [Request.get_sink_input_info_list] else [])

/-- GDK `GDK_BUTTON_PRIMARY`. -/
def GDK_BUTTON_PRIMARY : Nat := 1

/-- Source `on_button_clicked` (lines 306-312): the returned flag tells
whether the event was handled. -/
def on_button_clicked (mixer : VolumeMixerPlugin) (button : Nat) :
    Bool × VolumeMixerPlugin × List Request :=
  if button ≠ GDK_BUTTON_PRIMARY then (false, mixer, [])
  else (true, toggle_popup mixer)

/-- The `focus-out-event` handler connected in `create_popup_window`
(lines 339-340): `gtk_widget_hide` on the popup window. -/
def on_focus_out (mixer : VolumeMixerPlugin) : VolumeMixerPlugin :=
  { mixer with popup_visible := false }

/-- Source `volume_mixer_plugin_init` (lines 374-405): the state once the
instance is built; `connect_to_pulseaudio` has stored a context. -/
def volume_mixer_plugin_init : VolumeMixerPlugin :=
  { popup_visible := false
    mixer_box := []
    pa_context := true
    connected := false
    sink_inputs := g_hash_table_new_full }

/-! ## Event dispatch -/

/-- Everything the toolkit main loop can deliver to the plugin, apart from
slider changes (which leave the plugin state as it is). -/
inductive Event where
  | button_press (button : Nat)
  | focus_out
  | context_state (state : pa_context_state_t)
  | sink_input_info (i : Option pa_sink_input_info) (eol : Int)
  | subscription (type idx : Nat)

/-- One turn of the main loop: the handler the event is connected to. -/
def dispatch (mixer : VolumeMixerPlugin) : Event → VolumeMixerPlugin × List Request
  | .button_press button => (on_button_clicked mixer button).2
  | .focus_out => (on_focus_out mixer, [])
  | .context_state state => context_state_callback mixer state
  | .sink_input_info i eol => (sink_input_info_callback mixer i eol, [])
  | .subscription type idx => subscribe_callback mixer type idx

/-- The plugin state after a sequence of events, starting from `mixer`. -/
def run (mixer : VolumeMixerPlugin) (events : List Event) : VolumeMixerPlugin :=
  events.foldl (fun m e => (dispatch m e).1) mixer

/-! ## Definitions used to state the properties -/

/-- A child of the mixer box is a placeholder when it is a plain label. -/
def Widget.isPlaceholder : Widget → Bool
  | .label _ => true
  | .column _ _ _ _ => false

/-- A child of the mixer box is a channel column. -/
def Widget.isColumn : Widget → Bool
  | .label _ => false
  | .column _ _ _ _ => true

/-- A registry entry used to instantiate the theorems: stream 7, two channels at nominal volume. -/
def sampleEntry : SinkInputInfo :=
  { index := 7, name := none, app_name := some "Player".toList, icon_name := none
    volume := { channels := 2, values := [65536, 65536] }, sink := 0 }

/-- A plugin state used to instantiate the theorems: connected, popup hidden, one entry. -/
def sampleMixer : VolumeMixerPlugin :=
  { popup_visible := false, mixer_box := [], pa_context := true, connected := true
    sink_inputs := [(7, sampleEntry)] }

/-- The entry `sink_input_info_callback` builds from a descriptor (lines 208-215). -/
def entryOf (i : pa_sink_input_info) : SinkInputInfo :=
  { index := i.index
    name := i.name
    app_name := pa_proplist_gets i.proplist PA_PROP_APPLICATION_NAME
    icon_name := extract_icon_name i.proplist
    volume := i.volume
    sink := i.sink }

/-- A registry-changing step: a descriptor delivered to
`sink_input_info_callback`, or a removed notification handled by
`subscribe_callback`. -/
inductive RegistryStep where
  | descriptor (i : pa_sink_input_info)
  | removed (idx : Nat)
deriving DecidableEq

/-- The stream identifier a step mentions. -/
def RegistryStep.ident : RegistryStep → Nat
  | .descriptor i => i.index
  | .removed idx => idx

/-- The event that carries a step: a descriptor arrives with `eol = 0`, a
removal as a subscription event of facility sink-input and type remove. -/
def RegistryStep.toEvent : RegistryStep → Event
  | .descriptor i => Event.sink_input_info (some i) 0
  | .removed idx =>
    Event.subscription (PA_SUBSCRIPTION_EVENT_SINK_INPUT ||| PA_SUBSCRIPTION_EVENT_REMOVE) idx

/-- The plugin state after handling the steps in order. -/
def process (m : VolumeMixerPlugin) (steps : List RegistryStep) : VolumeMixerPlugin :=
  run m (steps.map RegistryStep.toEvent)

/-- For each identifier only the last step that mentions it, in the original order. -/
def lastPerIdentifier : List RegistryStep → List RegistryStep
  | [] => []
  | s :: rest =>
    if rest.any (fun s' => decide (s'.ident = s.ident)) then lastPerIdentifier rest
    else s :: lastPerIdentifier rest

/-- The registry as a map from stream identifier to entry. -/
def registryMap (m : VolumeMixerPlugin) : Nat → Option SinkInputInfo :=
  fun key => g_hash_table_lookup m.sink_inputs key

/-- What a step does to the hash table. -/
def RegistryStep.apply (t : GHashTable SinkInputInfo) : RegistryStep → GHashTable SinkInputInfo
  | .descriptor i => g_hash_table_insert t i.index (entryOf i)
  | .removed idx => g_hash_table_remove t idx

/-- What a step leaves under the identifier it mentions. -/
def RegistryStep.result : RegistryStep → Option SinkInputInfo
  | .descriptor i => some (entryOf i)
  | .removed _ => none

/-- Every entry of the table is stored under its own `index`. -/
def KeysAgree (t : GHashTable SinkInputInfo) : Prop :=
  ∀ kv ∈ t, kv.2.index = kv.1

/-- Every column of the box is bound to an entry whose `index` is a key of the table. -/
def ColumnsRegistered (box : List Widget) (t : GHashTable SinkInputInfo) : Prop :=
  ∀ icon label slider info, Widget.column icon label slider info ∈ box →
    ∃ kv ∈ t, kv.1 = info.index

/-- The invariant of the plugin state. -/
def Consistent (m : VolumeMixerPlugin) : Prop :=
  KeysAgree m.sink_inputs ∧ ColumnsRegistered m.mixer_box m.sink_inputs

/-- A descriptor used to instantiate the theorems: stream 7, two channels at half volume. -/
def sampleDescriptor : pa_sink_input_info :=
  { index := 7, name := some "Playback".toList
    proplist := [("application.name", "My App".toList)]
    volume := { channels := 2, values := [32768, 32768] }, sink := 0 }

/-- A run that connects, opens the popup and receives one descriptor and the end marker. -/
def sampleEvents : List Event :=
  [Event.context_state pa_context_state_t.PA_CONTEXT_READY,
   Event.button_press GDK_BUTTON_PRIMARY,
   Event.sink_input_info (some sampleDescriptor) 0,
   Event.sink_input_info none 1]

/-! # Theorems -/

/-! ## Icon-hint derivation -/

theorem nonEmpty?_eq_filter (o : Option CString) :
    nonEmpty? o = o.filter (fun s => s ≠ []) := by
  rcases o with _ | s
  · rfl
  · cases s <;> simp [nonEmpty?, Option.filter]

theorem g_str_has_suffix_iff (str suffix : CString) :
    g_str_has_suffix str suffix = true ↔ suffix <:+ str := by
  unfold g_str_has_suffix
  constructor
  · intro h
    split at h
    · simp at h
    · have h2 : List.drop (str.length - suffix.length) str = suffix := by simpa using h
      rw [← h2]
      exact List.drop_suffix _ _
  · intro h
    have hlen : suffix.length ≤ str.length := h.length_le
    rw [if_neg (by omega)]
    obtain ⟨pre, rfl⟩ := h
    simp

theorem g_strndup_length_sub (str : CString) (n : Nat) :
    g_strndup str (str.length - n) = str.rdrop n := by
  simp [g_strndup, List.rdrop]

theorem g_ascii_tolower_of_upper (c : Char) (h : 'A'.toNat ≤ c.toNat ∧ c.toNat ≤ 'Z'.toNat) :
    g_ascii_tolower c = Char.ofNat (c.toNat + 32) := by
  have h1 : 'A' ≤ c := by
    rw [Char.le_def]; exact h.1
  have h2 : c ≤ 'Z' := by
    rw [Char.le_def]; exact h.2
  unfold g_ascii_tolower
  rw [if_pos ⟨h1, h2⟩]
  congr 1
  have : 'A'.toNat = 65 := by decide
  have : 'a'.toNat = 97 := by decide
  omega

theorem g_ascii_tolower_of_not_upper (c : Char)
    (h : ¬ ('A'.toNat ≤ c.toNat ∧ c.toNat ≤ 'Z'.toNat)) : g_ascii_tolower c = c := by
  unfold g_ascii_tolower
  rw [if_neg]
  intro h2
  apply h
  exact ⟨by have := h2.1; rwa [Char.le_def] at this, by have := h2.2; rwa [Char.le_def] at this⟩

theorem lower_then_delimit_char (c : Char) :
    (if g_ascii_tolower c ∈ " ".toList then '-' else g_ascii_tolower c) =
      (if c = ' ' then '-'
       else if 'A'.toNat ≤ c.toNat ∧ c.toNat ≤ 'Z'.toNat then Char.ofNat (c.toNat + 32)
       else c) := by
  have hsp : " ".toList = [' '] := rfl
  rw [hsp]
  by_cases hu : 'A'.toNat ≤ c.toNat ∧ c.toNat ≤ 'Z'.toNat
  · have hA : 'A'.toNat = 65 := by decide
    have hZ : 'Z'.toNat = 90 := by decide
    have hS : ' '.toNat = 32 := by decide
    rw [g_ascii_tolower_of_upper c hu, if_pos hu]
    have hc : c ≠ ' ' := by
      intro h; rw [h] at hu; omega
    rw [if_neg hc]
    have hne : Char.ofNat (c.toNat + 32) ≠ ' ' := by
      intro h
      have h3 : (Char.ofNat (c.toNat + 32)).toNat = ' '.toNat := by rw [h]
      have hv : (c.toNat + 32).isValidChar := by
        left; omega
      rw [Char.ofNat, dif_pos hv] at h3
      change c.toNat + 32 = ' '.toNat at h3
      omega
    simp [hne]
  · rw [g_ascii_tolower_of_not_upper c hu, if_neg hu]
    simp

theorem strdelimit_strdown_eq (name : CString) :
    g_strdelimit (g_ascii_strdown name) " ".toList '-' = lowerHyphenate name := by
  unfold g_strdelimit g_ascii_strdown lowerHyphenate
  rw [List.map_map]
  apply List.map_congr_left
  intro c _
  exact lower_then_delimit_char c

/-- C2: `extract_icon_name` is the specified fallback chain on every property
list (icon name unchanged; else application id with one trailing `.desktop`
removed; else application name lowercased with spaces turned into `-`; else
absent), and the four sample property lists give `foo`, `bar`, `my-app` and
absent. -/
theorem extract_icon_name_eq_spec :
    (∀ p : pa_proplist, extract_icon_name p = iconHintSpec p) ∧
    extract_icon_name [("application.icon_name", "foo".toList)] = some "foo".toList ∧
    extract_icon_name [("application.id", "bar.desktop".toList)] = some "bar".toList ∧
    extract_icon_name [("application.name", "My App".toList)] = some "my-app".toList ∧
    extract_icon_name [] = none := by
  refine ⟨?_, by decide, by decide, by decide, by decide⟩
  intro p
  unfold extract_icon_name iconHintSpec presentNonEmpty pa_proplist_gets
    PA_PROP_APPLICATION_ICON_NAME PA_PROP_APPLICATION_ID PA_PROP_APPLICATION_NAME
  simp only [nonEmpty?_eq_filter]
  cases h1 : (List.lookup "application.icon_name" p).filter (fun s => s ≠ []) with
  | some icon => rfl
  | none =>
    cases h2 : (List.lookup "application.id" p).filter (fun s => s ≠ []) with
    | some id =>
      simp only
      unfold stripDesktopSuffix
      by_cases hs : ".desktop".toList <:+ id
      · rw [if_pos ((g_str_has_suffix_iff _ _).2 hs), if_pos hs, g_strndup_length_sub]
      · have : ¬ g_str_has_suffix id ".desktop".toList = true :=
          fun h => hs ((g_str_has_suffix_iff _ _).1 h)
        rw [if_neg this, if_neg hs]
    | none =>
      cases h3 : (List.lookup "application.name" p).filter (fun s => s ≠ []) with
      | some name => simp only [strdelimit_strdown_eq]
      | none => rfl

/-! ## View rebuild -/

theorem foldl_pack_start (entries : GHashTable SinkInputInfo) (box : List Widget) :
    entries.foldl (fun b kv => gtk_box_pack_start b (create_app_volume_slider kv.2)) box =
      box ++ entries.map (fun kv => create_app_volume_slider kv.2) := by
  induction entries generalizing box with
  | nil => simp
  | cons kv rest ih =>
    rw [List.foldl_cons, ih, List.map_cons]
    simp [gtk_box_pack_start]

theorem update_mixer_ui_box (m : VolumeMixerPlugin) :
    (update_mixer_ui m).mixer_box =
      if m.sink_inputs = [] then [Widget.label "No applications playing audio".toList]
      else m.sink_inputs.map (fun kv => create_app_volume_slider kv.2) := by
  dsimp only [update_mixer_ui]
  rw [foldl_pack_start]
  simp only [g_hash_table_size, gtk_container_destroy_children,
    gtk_box_pack_start, List.nil_append, List.length_eq_zero]

theorem update_mixer_ui_sink_inputs (m : VolumeMixerPlugin) :
    (update_mixer_ui m).sink_inputs = m.sink_inputs := rfl

theorem filter_isColumn_map (entries : GHashTable SinkInputInfo) :
    (entries.map (fun kv => create_app_volume_slider kv.2)).filter Widget.isColumn =
      entries.map (fun kv => create_app_volume_slider kv.2) := by
  rw [List.filter_eq_self]
  intro w hw
  obtain ⟨kv, _, rfl⟩ := List.mem_map.1 hw
  rfl

theorem filter_isPlaceholder_map (entries : GHashTable SinkInputInfo) :
    (entries.map (fun kv => create_app_volume_slider kv.2)).filter Widget.isPlaceholder = [] := by
  rw [List.filter_eq_nil_iff]
  intro w hw
  obtain ⟨kv, _, rfl⟩ := List.mem_map.1 hw
  simp [create_app_volume_slider, Widget.isPlaceholder]

/-- C4: a view rebuild ignores what the mixer box held before; on an empty
registry the box becomes exactly one placeholder label and no column, on a
non-empty registry it becomes, with no placeholder, the columns of the
registry entries in iteration order, so there are as many columns as entries. -/
theorem update_mixer_ui_rebuild (m : VolumeMixerPlugin) :
    (∀ old : List Widget,
      (update_mixer_ui { m with mixer_box := old }).mixer_box = (update_mixer_ui m).mixer_box) ∧
    (update_mixer_ui m).mixer_box =
      (if g_hash_table_size m.sink_inputs = 0 then
        [Widget.label "No applications playing audio".toList]
      else m.sink_inputs.map (fun kv => create_app_volume_slider kv.2)) ∧
    ((update_mixer_ui m).mixer_box.filter Widget.isPlaceholder).length =
      (if g_hash_table_size m.sink_inputs = 0 then 1 else 0) ∧
    ((update_mixer_ui m).mixer_box.filter Widget.isColumn).length =
      g_hash_table_size m.sink_inputs := by
  have hbox := update_mixer_ui_box m
  refine ⟨fun old => ?_, ?_, ?_, ?_⟩
  · rw [update_mixer_ui_box, update_mixer_ui_box]
  · simpa [g_hash_table_size, List.length_eq_zero] using hbox
  · rw [hbox]
    by_cases h : m.sink_inputs = []
    · simp [h, g_hash_table_size, Widget.isPlaceholder]
    · have h2 : g_hash_table_size m.sink_inputs ≠ 0 := by
        simpa [g_hash_table_size, List.length_eq_zero] using h
      rw [if_neg h, if_neg h2, filter_isPlaceholder_map]
      rfl
  · rw [hbox]
    by_cases h : m.sink_inputs = []
    · simp [h, g_hash_table_size, Widget.isColumn]
    · rw [if_neg h, filter_isColumn_map]
      simp [g_hash_table_size]

/-! ## Popup -/

/-- C5, as stated, fails: opening the popup on the freshly built plugin
(popup hidden, registry empty) leaves in the mixer box a label different from
the one a view rebuild of the empty registry produces. -/
theorem toggle_popup_placeholder_differs :
    volume_mixer_plugin_init.popup_visible = false ∧
    (toggle_popup volume_mixer_plugin_init).1.sink_inputs = [] ∧
    (toggle_popup volume_mixer_plugin_init).1.mixer_box ≠
      (update_mixer_ui (toggle_popup volume_mixer_plugin_init).1).mixer_box := by
  decide

/-- C5, amended: opening the popup from any hidden state empties the registry,
makes the popup visible and leaves in the mixer box exactly one element, the
loading label (one placeholder, no column), whatever registry and box were
there before; that label is not the one a view rebuild of the now empty
registry would pack.  The same holds for the second open of an
open-close-open cycle. -/
theorem toggle_popup_open_resets (m : VolumeMixerPlugin) (h : m.popup_visible = false) :
    (toggle_popup m).1.sink_inputs = [] ∧
    (toggle_popup m).1.mixer_box = [Widget.label "Loadingâ€¦".toList] ∧
    (toggle_popup m).1.popup_visible = true ∧
    (toggle_popup m).1.mixer_box ≠ (update_mixer_ui (toggle_popup m).1).mixer_box ∧
    (toggle_popup (toggle_popup (toggle_popup m).1).1).1.sink_inputs = [] ∧
    (toggle_popup (toggle_popup (toggle_popup m).1).1).1.mixer_box =
      [Widget.label "Loadingâ€¦".toList] ∧
    (toggle_popup (toggle_popup (toggle_popup m).1).1).1.popup_visible = true := by
  have h1 : (toggle_popup m).1.sink_inputs = [] := by
    simp [toggle_popup, h, g_hash_table_remove_all]
  have h2 : (toggle_popup m).1.mixer_box = [Widget.label "Loadingâ€¦".toList] := by
    simp [toggle_popup, h, gtk_container_destroy_children, gtk_box_pack_start]
  refine ⟨h1, h2, ?_, ?_, ?_, ?_, ?_⟩
  · simp [toggle_popup, h]
  · rw [update_mixer_ui_box, h1, if_pos rfl, h2]
    decide
  · simp [toggle_popup, h, g_hash_table_remove_all]
  · simp [toggle_popup, h, gtk_container_destroy_children, gtk_box_pack_start]
  · simp [toggle_popup, h]

/-- Instance of the amended C5: opening the popup of the freshly built plugin. -/
theorem toggle_popup_open_resets_witness :
    (toggle_popup volume_mixer_plugin_init).1.sink_inputs = [] ∧
    (toggle_popup volume_mixer_plugin_init).1.mixer_box = [Widget.label "Loadingâ€¦".toList] ∧
    (toggle_popup volume_mixer_plugin_init).1.popup_visible = true :=
  have h := toggle_popup_open_resets volume_mixer_plugin_init rfl
  ⟨h.1, h.2.1, h.2.2.1⟩

/-! ## Registry synchronisation -/

theorem g_hash_table_remove_absent {V : Type} (t : GHashTable V) (key : Nat)
    (h : ∀ kv ∈ t, kv.1 ≠ key) : g_hash_table_remove t key = t := by
  unfold g_hash_table_remove
  rw [List.filter_eq_self]
  intro kv hkv
  simpa using h kv hkv

/-- C6: a sink-input removed notification for an identifier that is not a key
of the registry leaves the registry exactly as it was, sends no request and
does nothing but the normal view rebuild. -/
theorem subscribe_callback_remove_absent (m : VolumeMixerPlugin) (type idx : Nat)
    (hfac : type &&& PA_SUBSCRIPTION_EVENT_FACILITY_MASK = PA_SUBSCRIPTION_EVENT_SINK_INPUT)
    (hrem : type &&& PA_SUBSCRIPTION_EVENT_TYPE_MASK = PA_SUBSCRIPTION_EVENT_REMOVE)
    (habsent : ∀ kv ∈ m.sink_inputs, kv.1 ≠ idx) :
    (subscribe_callback m type idx).1.sink_inputs = m.sink_inputs ∧
    subscribe_callback m type idx = (update_mixer_ui m, []) := by
  have hm : { m with sink_inputs := g_hash_table_remove m.sink_inputs idx } = m := by
    rw [g_hash_table_remove_absent _ _ habsent]
  unfold subscribe_callback
  rw [if_pos hfac, if_pos hrem, hm]
  exact ⟨rfl, rfl⟩

/-- Instance of C6: stream 9 is removed while only stream 7 is registered. -/
theorem subscribe_callback_remove_absent_witness :
    (subscribe_callback sampleMixer 0x22 9).1.sink_inputs = sampleMixer.sink_inputs ∧
    subscribe_callback sampleMixer 0x22 9 = (update_mixer_ui sampleMixer, []) :=
  subscribe_callback_remove_absent sampleMixer 0x22 9 (by decide) (by decide) (by decide)

/-! ## Requests outside the Ready state -/

/-- C8: a primary-button press flips the popup visibility and is reported as
handled, so two primary presses in a row restore the visibility; any other
button leaves the whole state as it is, sends nothing and is reported as not
handled; closing a visible popup sends no request and keeps the registry. -/
theorem on_button_clicked_visibility (m : VolumeMixerPlugin) :
    (on_button_clicked m GDK_BUTTON_PRIMARY).1 = true ∧
    (on_button_clicked m GDK_BUTTON_PRIMARY).2.1.popup_visible = !m.popup_visible ∧
    (on_button_clicked (on_button_clicked m GDK_BUTTON_PRIMARY).2.1
      GDK_BUTTON_PRIMARY).2.1.popup_visible = m.popup_visible ∧
    (∀ button, button ≠ GDK_BUTTON_PRIMARY → on_button_clicked m button = (false, m, [])) ∧
    (m.popup_visible = true →
      (on_button_clicked m GDK_BUTTON_PRIMARY).2.1.popup_visible = false ∧
      (on_button_clicked m GDK_BUTTON_PRIMARY).2.2 = [] ∧
      (on_button_clicked m GDK_BUTTON_PRIMARY).2.1.sink_inputs = m.sink_inputs ∧
      (on_button_clicked m GDK_BUTTON_PRIMARY).2.1 = on_focus_out m) := by
  have hflip : ∀ s : VolumeMixerPlugin,
      (on_button_clicked s GDK_BUTTON_PRIMARY).2.1.popup_visible = !s.popup_visible := by
    intro s
    cases hv : s.popup_visible <;> simp [on_button_clicked, toggle_popup, hv]
  refine ⟨by simp [on_button_clicked], hflip m, ?_, ?_, ?_⟩
  · rw [hflip, hflip, Bool.not_not]
  · intro button hb
    simp [on_button_clicked, hb]
  · intro hv
    simp [on_button_clicked, toggle_popup, hv, on_focus_out]

/-- Instance of C8: a press of button 3, then an open followed by a close. -/
theorem on_button_clicked_visibility_witness :
    on_button_clicked sampleMixer 3 = (false, sampleMixer, []) ∧
    (on_button_clicked (on_button_clicked sampleMixer GDK_BUTTON_PRIMARY).2.1
        GDK_BUTTON_PRIMARY).2.2 = [] ∧
    (on_button_clicked (on_button_clicked sampleMixer GDK_BUTTON_PRIMARY).2.1
        GDK_BUTTON_PRIMARY).2.1.sink_inputs =
      (on_button_clicked sampleMixer GDK_BUTTON_PRIMARY).2.1.sink_inputs :=
  ⟨(on_button_clicked_visibility sampleMixer).2.2.2.1 3 (by decide),
   ((on_button_clicked_visibility (on_button_clicked sampleMixer GDK_BUTTON_PRIMARY).2.1).2.2.2.2
      (by decide)).2.1,
   ((on_button_clicked_visibility (on_button_clicked sampleMixer GDK_BUTTON_PRIMARY).2.1).2.2.2.2
      (by decide)).2.2.1⟩

/-! ## Last write wins -/

theorem lookup_insert {V : Type} (t : GHashTable V) (key k : Nat) (v : V) :
    g_hash_table_lookup (g_hash_table_insert t key v) k =
      if key = k then some v else g_hash_table_lookup t k := by
  unfold g_hash_table_lookup
  induction t with
  | nil =>
    by_cases h : key = k
    · subst h; simp [g_hash_table_insert, List.lookup]
    · have h2 : (k == key) = false := by simpa using fun e => h e.symm
      simp [g_hash_table_insert, List.lookup, h, h2]
  | cons kv rest ih =>
    obtain ⟨k0, v0⟩ := kv
    unfold g_hash_table_insert
    by_cases h0 : k0 = key
    · subst h0
      rw [if_pos rfl]
      by_cases h : k0 = k
      · subst h; simp [List.lookup]
      · have h2 : (k == k0) = false := by simpa using fun e => h e.symm
        simp [List.lookup, h, h2]
    · rw [if_neg h0]
      by_cases h1 : k = k0
      · subst h1
        have : ¬ key = k := fun e => h0 e.symm
        simp [List.lookup, this]
      · have h2 : (k == k0) = false := by simpa using h1
        simp only [List.lookup, h2]
        exact ih

theorem lookup_remove {V : Type} (t : GHashTable V) (key k : Nat) :
    g_hash_table_lookup (g_hash_table_remove t key) k =
      if key = k then none else g_hash_table_lookup t k := by
  unfold g_hash_table_lookup g_hash_table_remove
  induction t with
  | nil => simp [List.lookup]
  | cons kv rest ih =>
    obtain ⟨k0, v0⟩ := kv
    by_cases h0 : k0 = key
    · subst h0
      have hf : List.filter (fun kv : Nat × V => decide (kv.1 ≠ k0)) ((k0, v0) :: rest) =
          List.filter (fun kv : Nat × V => decide (kv.1 ≠ k0)) rest := by
        simp [List.filter_cons]
      rw [hf, ih]
      by_cases h : k0 = k
      · simp [h]
      · have h2 : (k == k0) = false := by simpa using fun e => h e.symm
        simp [List.lookup, h, h2]
    · have hf : List.filter (fun kv : Nat × V => decide (kv.1 ≠ key)) ((k0, v0) :: rest) =
          (k0, v0) :: List.filter (fun kv : Nat × V => decide (kv.1 ≠ key)) rest := by
        simp [List.filter_cons, h0]
      rw [hf]
      by_cases h1 : k = k0
      · subst h1
        have : ¬ key = k := fun e => h0 e.symm
        simp [List.lookup, this]
      · have h2 : (k == k0) = false := by simpa using h1
        simp only [List.lookup, h2]
        exact ih

theorem lookup_apply (t : GHashTable SinkInputInfo) (s : RegistryStep) (k : Nat) :
    g_hash_table_lookup (s.apply t) k =
      if s.ident = k then s.result else g_hash_table_lookup t k := by
  cases s with
  | descriptor i => exact lookup_insert t i.index k (entryOf i)
  | removed idx => exact lookup_remove t idx k

theorem dispatch_step_sink_inputs (m : VolumeMixerPlugin) (s : RegistryStep) :
    (dispatch m s.toEvent).1.sink_inputs = s.apply m.sink_inputs := by
  cases s with
  | descriptor i => rfl
  | removed idx =>
    have h1 : (PA_SUBSCRIPTION_EVENT_SINK_INPUT ||| PA_SUBSCRIPTION_EVENT_REMOVE) &&&
        PA_SUBSCRIPTION_EVENT_FACILITY_MASK = PA_SUBSCRIPTION_EVENT_SINK_INPUT := by decide
    have h2 : (PA_SUBSCRIPTION_EVENT_SINK_INPUT ||| PA_SUBSCRIPTION_EVENT_REMOVE) &&&
        PA_SUBSCRIPTION_EVENT_TYPE_MASK = PA_SUBSCRIPTION_EVENT_REMOVE := by decide
    simp only [RegistryStep.toEvent, dispatch, subscribe_callback, h1, h2, if_true,
      update_mixer_ui_sink_inputs, RegistryStep.apply]

theorem process_sink_inputs (steps : List RegistryStep) (m : VolumeMixerPlugin) :
    (process m steps).sink_inputs = steps.foldl RegistryStep.apply m.sink_inputs := by
  induction steps generalizing m with
  | nil => rfl
  | cons s rest ih =>
    have := ih (dispatch m s.toEvent).1
    simp only [process, run, List.map_cons, List.foldl_cons] at this ⊢
    rw [this, dispatch_step_sink_inputs]

theorem foldl_apply_last_wins (steps : List RegistryStep) :
    ∀ t t' : GHashTable SinkInputInfo,
      (∀ k, (∀ s ∈ steps, s.ident ≠ k) → g_hash_table_lookup t k = g_hash_table_lookup t' k) →
      ∀ k, g_hash_table_lookup (steps.foldl RegistryStep.apply t) k =
        g_hash_table_lookup ((lastPerIdentifier steps).foldl RegistryStep.apply t') k := by
  induction steps with
  | nil =>
    intro t t' h k
    exact h k (by simp)
  | cons s rest ih =>
    intro t t' h k
    rw [List.foldl_cons]
    unfold lastPerIdentifier
    by_cases hlater : rest.any (fun s' => decide (s'.ident = s.ident)) = true
    · rw [if_pos hlater]
      apply ih
      intro k' hk'
      obtain ⟨s', hs', he⟩ := List.any_eq_true.1 hlater
      have he' : s'.ident = s.ident := by simpa using he
      have hne : s.ident ≠ k' := fun e => hk' s' hs' (he'.trans e)
      rw [lookup_apply, if_neg hne]
      apply h
      intro s0 hs0
      rcases List.mem_cons.1 hs0 with rfl | hin
      · exact hne
      · exact hk' s0 hin
    · rw [if_neg hlater, List.foldl_cons]
      apply ih
      intro k' hk'
      rw [lookup_apply, lookup_apply]
      by_cases hid : s.ident = k'
      · rw [if_pos hid, if_pos hid]
      · rw [if_neg hid, if_neg hid]
        apply h
        intro s0 hs0
        rcases List.mem_cons.1 hs0 with rfl | hin
        · exact hid
        · exact hk' s0 hin

/-- The filter keeps, in order, the last step of each identifier: of a
delivery, a removal and a second delivery for stream 7 interleaved with one
delivery for stream 8, the delivery for 8 and the second delivery for 7 stay. -/
theorem lastPerIdentifier_sample :
    lastPerIdentifier
      [RegistryStep.descriptor sampleDescriptor, RegistryStep.removed 7,
       RegistryStep.descriptor { sampleDescriptor with index := 8 },
       RegistryStep.descriptor { sampleDescriptor with sink := 1 }] =
      [RegistryStep.descriptor { sampleDescriptor with index := 8 },
       RegistryStep.descriptor { sampleDescriptor with sink := 1 }] := by
  decide

theorem insert_twice {V : Type} (t : GHashTable V) (key : Nat) (v : V) :
    g_hash_table_insert (g_hash_table_insert t key v) key v = g_hash_table_insert t key v := by
  induction t with
  | nil => simp [g_hash_table_insert]
  | cons kv rest ih =>
    obtain ⟨k0, v0⟩ := kv
    by_cases h0 : k0 = key
    · simp [g_hash_table_insert, h0]
    · simp [g_hash_table_insert, h0, ih]

/-- C1: for every starting state and every sequence of descriptor deliveries
and removed notifications, the registry (as a map from identifier to entry)
after handling the whole sequence equals the registry after handling, from
the same start, only the last step that mentions each identifier; handling a
descriptor twice gives the same hash table as handling it once; and a
descriptor for an identifier not yet present is inserted. -/
theorem registry_last_write_wins (m : VolumeMixerPlugin) (steps : List RegistryStep) :
    registryMap (process m steps) = registryMap (process m (lastPerIdentifier steps)) ∧
    (∀ i : pa_sink_input_info,
      (process m [RegistryStep.descriptor i, RegistryStep.descriptor i]).sink_inputs =
        (process m [RegistryStep.descriptor i]).sink_inputs) ∧
    (∀ i : pa_sink_input_info,
      registryMap (process m [RegistryStep.descriptor i]) i.index = some (entryOf i)) := by
  refine ⟨?_, ?_, ?_⟩
  · funext k
    unfold registryMap
    rw [process_sink_inputs, process_sink_inputs]
    exact foldl_apply_last_wins steps _ _ (fun _ _ => rfl) k
  · intro i
    rw [process_sink_inputs, process_sink_inputs]
    simp only [List.foldl_cons, List.foldl_nil, RegistryStep.apply]
    exact insert_twice _ _ _
  · intro i
    unfold registryMap
    rw [process_sink_inputs]
    simp only [List.foldl_cons, List.foldl_nil, RegistryStep.apply]
    rw [lookup_insert, if_pos rfl]

/-! ## Key and identifier agree -/

theorem mem_insert {V : Type} (t : GHashTable V) (key : Nat) (v : V) (kv : Nat × V)
    (h : kv ∈ g_hash_table_insert t key v) : kv = (key, v) ∨ kv ∈ t := by
  induction t with
  | nil =>
    left
    simpa [g_hash_table_insert] using h
  | cons kv0 rest ih =>
    obtain ⟨k0, v0⟩ := kv0
    unfold g_hash_table_insert at h
    by_cases h0 : k0 = key
    · rw [if_pos h0] at h
      rcases List.mem_cons.1 h with rfl | hin
      · left; rw [h0]
      · right; exact List.mem_cons_of_mem _ hin
    · rw [if_neg h0] at h
      rcases List.mem_cons.1 h with rfl | hin
      · right; exact List.mem_cons_self _ _
      · rcases ih hin with hl | hr
        · left; exact hl
        · right; exact List.mem_cons_of_mem _ hr

theorem insert_has_key {V : Type} (t : GHashTable V) (key : Nat) (v : V) (k : Nat)
    (h : ∃ kv ∈ t, kv.1 = k) : ∃ kv ∈ g_hash_table_insert t key v, kv.1 = k := by
  induction t with
  | nil => simp at h
  | cons kv0 rest ih =>
    obtain ⟨k0, v0⟩ := kv0
    obtain ⟨kv, hkv, hk⟩ := h
    unfold g_hash_table_insert
    by_cases h0 : k0 = key
    · rw [if_pos h0]
      rcases List.mem_cons.1 hkv with rfl | hin
      · exact ⟨(k0, v), List.mem_cons_self _ _, hk⟩
      · exact ⟨kv, List.mem_cons_of_mem _ hin, hk⟩
    · rw [if_neg h0]
      rcases List.mem_cons.1 hkv with rfl | hin
      · exact ⟨(k0, v0), List.mem_cons_self _ _, hk⟩
      · obtain ⟨kv', hkv', hk'⟩ := ih ⟨kv, hin, hk⟩
        exact ⟨kv', List.mem_cons_of_mem _ hkv', hk'⟩

theorem keysAgree_insert (t : GHashTable SinkInputInfo) (i : pa_sink_input_info)
    (h : KeysAgree t) : KeysAgree (g_hash_table_insert t i.index (entryOf i)) := by
  intro kv hkv
  rcases mem_insert t _ _ kv hkv with rfl | hin
  · rfl
  · exact h kv hin

theorem keysAgree_remove (t : GHashTable SinkInputInfo) (idx : Nat)
    (h : KeysAgree t) : KeysAgree (g_hash_table_remove t idx) := by
  intro kv hkv
  exact h kv (List.mem_of_mem_filter hkv)

theorem consistent_update_mixer_ui (m : VolumeMixerPlugin) (h : KeysAgree m.sink_inputs) :
    Consistent (update_mixer_ui m) := by
  refine ⟨h, ?_⟩
  intro icon label slider info hmem
  rw [update_mixer_ui_box] at hmem
  rw [update_mixer_ui_sink_inputs]
  split at hmem
  · simp at hmem
  · obtain ⟨kv, hkv, hw⟩ := List.mem_map.1 hmem
    have hinfo : kv.2 = info := by
      simp only [create_app_volume_slider, Widget.column.injEq] at hw
      exact hw.2.2.2
    exact ⟨kv, hkv, by rw [← hinfo, h kv hkv]⟩

theorem consistent_toggle_popup (m : VolumeMixerPlugin) (h : Consistent m) :
    Consistent (toggle_popup m).1 := by
  unfold toggle_popup
  split
  · exact h
  · refine ⟨?_, ?_⟩
    · intro kv hkv
      simp [g_hash_table_remove_all] at hkv
    · intro icon label slider info hmem
      simp [gtk_box_pack_start, gtk_container_destroy_children] at hmem

theorem consistent_dispatch (m : VolumeMixerPlugin) (e : Event) (h : Consistent m) :
    Consistent (dispatch m e).1 := by
  cases e with
  | button_press button =>
    simp only [dispatch, on_button_clicked]
    split
    · exact h
    · exact consistent_toggle_popup m h
  | focus_out => exact h
  | context_state state =>
    simp only [dispatch, context_state_callback]
    split <;> exact h
  | sink_input_info i eol =>
    simp only [dispatch, sink_input_info_callback]
    split
    · exact consistent_update_mixer_ui m h.1
    · cases i with
      | none => exact h
      | some i =>
        refine ⟨keysAgree_insert _ i h.1, ?_⟩
        intro icon label slider info hmem
        exact insert_has_key _ _ _ _ (h.2 icon label slider info hmem)
  | subscription type idx =>
    simp only [dispatch, subscribe_callback]
    split
    · split
      · exact consistent_update_mixer_ui _ (keysAgree_remove _ idx h.1)
      · exact h
    · exact h

theorem consistent_run (events : List Event) (m : VolumeMixerPlugin) (h : Consistent m) :
    Consistent (run m events) := by
  induction events generalizing m with
  | nil => exact h
  | cons e rest ih => exact ih _ (consistent_dispatch m e h)

theorem consistent_init : Consistent volume_mixer_plugin_init := by
  constructor
  · intro kv hkv
    simp [volume_mixer_plugin_init, g_hash_table_new_full] at hkv
  · intro icon label slider info hmem
    simp [volume_mixer_plugin_init] at hmem

theorem on_volume_changed_target (m : VolumeMixerPlugin) (info : SinkInputInfo)
    (value : gdouble) :
    (∀ reqs, on_volume_changed m info value = some reqs →
      ∀ r ∈ reqs, ∃ vol, r = Request.set_sink_input_volume info.index vol) ∧
    (m.pa_context = true → m.connected = true →
      pa_channels_valid info.volume.channels = true →
      ∃ vol, on_volume_changed m info value =
        some [Request.set_sink_input_volume info.index vol]) := by
  unfold on_volume_changed
  constructor
  · intro reqs hreq r hr
    split at hreq
    · cases hreq
      simp at hr
    · split at hreq
      · next new_volume _ =>
        cases hreq
        exact ⟨new_volume, by simpa using hr⟩
      · cases hreq
  · intro hc hconn hvalid
    simp [hc, hconn, pa_cvolume_set, hvalid]

/-- C9: after any sequence of events handled from the state built by
`volume_mixer_plugin_init`, every registry entry is stored under a key equal
to its own `index`; hence every request `on_volume_changed` sends for that
entry is a volume-set addressed to that key, and when the connection is ready
and the entry has a valid channel count exactly one such request is sent.
Every column in the mixer box is likewise bound to an entry whose `index` is a
key of the registry. -/
theorem registry_key_is_index (events : List Event) (key : Nat) (info : SinkInputInfo)
    (hmem : (key, info) ∈ (run volume_mixer_plugin_init events).sink_inputs) :
    info.index = key ∧
    (∀ value reqs, on_volume_changed (run volume_mixer_plugin_init events) info value =
        some reqs → ∀ r ∈ reqs, ∃ vol, r = Request.set_sink_input_volume key vol) ∧
    (∀ value, (run volume_mixer_plugin_init events).pa_context = true →
      (run volume_mixer_plugin_init events).connected = true →
      pa_channels_valid info.volume.channels = true →
      ∃ vol, on_volume_changed (run volume_mixer_plugin_init events) info value =
        some [Request.set_sink_input_volume key vol]) ∧
    ColumnsRegistered (run volume_mixer_plugin_init events).mixer_box
      (run volume_mixer_plugin_init events).sink_inputs := by
  have hc := consistent_run events _ consistent_init
  have hk : info.index = key := hc.1 (key, info) hmem
  refine ⟨hk, ?_, ?_, hc.2⟩
  · intro value reqs hreq r hr
    rw [← hk]
    exact (on_volume_changed_target _ info value).1 reqs hreq r hr
  · intro value h1 h2 h3
    rw [← hk]
    exact (on_volume_changed_target _ info value).2 h1 h2 h3

/-- Instance of C9: after connecting, opening the popup and receiving stream 7. -/
theorem registry_key_is_index_witness :
    (7, entryOf sampleDescriptor) ∈ (run volume_mixer_plugin_init sampleEvents).sink_inputs ∧
    (entryOf sampleDescriptor).index = 7 ∧
    ∃ vol, on_volume_changed (run volume_mixer_plugin_init sampleEvents)
      (entryOf sampleDescriptor) 50 = some [Request.set_sink_input_volume 7 vol] :=
  have hmem : (7, entryOf sampleDescriptor) ∈
      (run volume_mixer_plugin_init sampleEvents).sink_inputs := by decide
  have h := registry_key_is_index sampleEvents 7 (entryOf sampleDescriptor) hmem
  ⟨hmem, h.1, h.2.2.1 50 (by decide) (by decide) (by decide)⟩

/-! ## Facts about binary64 rounding -/

theorem log2_lt_of_lt {x : ℚ} {k : ℤ} (hx : 0 < x) (h : x < (2 : ℚ) ^ k) : Int.log 2 x < k := by
  have h2 : x < ((2 : ℕ) : ℚ) ^ k := by simpa using h
  exact (Int.lt_zpow_iff_log_lt (by norm_num) hx).1 h2

theorem lt_two_zpow_log2 (x : ℚ) : x < (2 : ℚ) ^ (Int.log 2 x + 1) := by
  have := Int.lt_zpow_succ_log_self (b := 2) (by norm_num) x
  simpa using this

theorem ulpExp_ge (x : ℚ) : -1074 ≤ ulpExp x := le_max_right _ _

theorem ulpExp_ge_log (x : ℚ) : Int.log 2 x - 52 ≤ ulpExp x := le_max_left _ _

theorem ulpExp_le {x : ℚ} {j : ℤ} (hx : 0 < x) (hj : -1074 ≤ j) (h : x < (2 : ℚ) ^ (j + 53)) :
    ulpExp x ≤ j := by
  have := log2_lt_of_lt hx h
  unfold ulpExp
  apply max_le <;> omega

theorem roundHalfEven_intCast (z : ℤ) : roundHalfEven (z : ℚ) = z := by
  unfold roundHalfEven
  rw [Int.floor_intCast]
  simp

theorem floor_le_roundHalfEven (q : ℚ) : ⌊q⌋ ≤ roundHalfEven q := by
  unfold roundHalfEven
  split_ifs <;> omega

theorem roundHalfEven_le_of_lt (q : ℚ) (M : ℤ) (h : q < (M : ℚ) + 1 / 2) :
    roundHalfEven q ≤ M := by
  have hfl : (⌊q⌋ : ℚ) ≤ q := Int.floor_le q
  have hle : ⌊q⌋ ≤ M := by
    have : ⌊q⌋ < M + 1 := by
      rw [Int.floor_lt]
      push_cast
      linarith
    omega
  by_cases hfrac : q - ⌊q⌋ < 1 / 2
  · unfold roundHalfEven
    rw [if_pos hfrac]
    exact hle
  · have hlt : ⌊q⌋ < M := by
      have : (⌊q⌋ : ℚ) < (M : ℚ) := by linarith
      exact_mod_cast this
    unfold roundHalfEven
    rw [if_neg hfrac]
    split_ifs <;> omega

theorem two_zpow_pos (e : ℤ) : (0 : ℚ) < (2 : ℚ) ^ e := zpow_pos (by norm_num) e

theorem two_zpow_sub_nat (j e : ℤ) (h : e ≤ j) :
    (2 : ℚ) ^ j / (2 : ℚ) ^ e = (((2 : ℤ) ^ (j - e).toNat : ℤ) : ℚ) := by
  rw [← zpow_sub₀ (by norm_num : (2 : ℚ) ≠ 0)]
  obtain ⟨k, hk⟩ := Int.eq_ofNat_of_zero_le (show 0 ≤ j - e by omega)
  rw [hk, zpow_natCast]
  simp

theorem natCast_lt_two_zpow {n : ℕ} (hn : n < 2 ^ 53) : (n : ℚ) < (2 : ℚ) ^ (53 : ℤ) := by
  have h : (n : ℚ) < (2 : ℚ) ^ (53 : ℕ) := by exact_mod_cast hn
  rw [← zpow_natCast] at h
  exact h

theorem div_ulp_is_int (n : ℕ) (j : ℤ) (hn : n < 2 ^ 53) (hj : -1074 ≤ j) :
    ∃ z : ℤ, (n : ℚ) * (2 : ℚ) ^ j / (2 : ℚ) ^ ulpExp ((n : ℚ) * (2 : ℚ) ^ j) = (z : ℚ) := by
  rcases Nat.eq_zero_or_pos n with h0 | hpos
  · exact ⟨0, by simp [h0]⟩
  · have hx : (0 : ℚ) < (n : ℚ) * (2 : ℚ) ^ j :=
      mul_pos (by exact_mod_cast hpos) (two_zpow_pos j)
    have hlt : (n : ℚ) * (2 : ℚ) ^ j < (2 : ℚ) ^ (j + 53) := by
      rw [zpow_add₀ (by norm_num : (2 : ℚ) ≠ 0), mul_comm ((2 : ℚ) ^ j)]
      exact mul_lt_mul_of_pos_right (natCast_lt_two_zpow hn) (two_zpow_pos j)
    have he := ulpExp_le hx hj hlt
    refine ⟨(n : ℤ) * (2 : ℤ) ^ (j - ulpExp ((n : ℚ) * (2 : ℚ) ^ j)).toNat, ?_⟩
    rw [mul_div_assoc, two_zpow_sub_nat j _ he]
    push_cast
    rfl

theorem round64Pos_of_int {x : ℚ} {z : ℤ} (h : x / (2 : ℚ) ^ ulpExp x = (z : ℚ)) :
    round64Pos x = x := by
  unfold round64Pos
  rw [h, roundHalfEven_intCast, ← h]
  exact div_mul_cancel₀ _ (two_zpow_pos _).ne'

/-- A value `n * 2 ^ j` with less than 53 significant bits and exponent at
least `-1074` is left unchanged by rounding. -/
theorem round64_exact (n : ℕ) (j : ℤ) (hn : n < 2 ^ 53) (hj : -1074 ≤ j) :
    round64 ((n : ℚ) * (2 : ℚ) ^ j) = (n : ℚ) * (2 : ℚ) ^ j := by
  have hx : ¬ ((n : ℚ) * (2 : ℚ) ^ j < 0) := by
    have : (0 : ℚ) ≤ (n : ℚ) * (2 : ℚ) ^ j := mul_nonneg (by positivity) (two_zpow_pos j).le
    linarith
  obtain ⟨z, hz⟩ := div_ulp_is_int n j hn hj
  unfold round64
  rw [if_neg hx]
  exact round64Pos_of_int hz

theorem round64_natCast (n : ℕ) (hn : n < 2 ^ 53) : round64 (n : ℚ) = (n : ℚ) := by
  have := round64_exact n 0 hn (by norm_num)
  simpa using this

theorem isDouble_of_repr (n : ℕ) (j : ℤ) (hn : n < 2 ^ 53) (hj : -1074 ≤ j) (hj2 : j ≤ 971) :
    isDouble ((n : ℚ) * (2 : ℚ) ^ j) := by
  have hx : (0 : ℚ) ≤ (n : ℚ) * (2 : ℚ) ^ j := mul_nonneg (by positivity) (two_zpow_pos j).le
  obtain ⟨z, hz⟩ := div_ulp_is_int n j hn hj
  unfold isDouble
  rw [abs_of_nonneg hx]
  constructor
  · have h1 : (n : ℚ) * (2 : ℚ) ^ j ≤ (n : ℚ) * (2 : ℚ) ^ (971 : ℤ) := by
      apply mul_le_mul_of_nonneg_left _ (by positivity)
      exact zpow_le_zpow_right₀ (by norm_num) hj2
    have h2 : (n : ℚ) * (2 : ℚ) ^ (971 : ℤ) < (2 : ℚ) ^ (53 : ℤ) * (2 : ℚ) ^ (971 : ℤ) := by
      exact mul_lt_mul_of_pos_right (natCast_lt_two_zpow hn) (two_zpow_pos _)
    have h3 : (2 : ℚ) ^ (53 : ℤ) * (2 : ℚ) ^ (971 : ℤ) = (2 : ℚ) ^ (1024 : ℕ) := by
      rw [← zpow_add₀ (by norm_num : (2 : ℚ) ≠ 0), ← zpow_natCast]
      norm_num
    linarith
  · rw [hz]
    rfl

theorem isDouble_natCast (n : ℕ) (hn : n < 2 ^ 53) : isDouble (n : ℚ) := by
  have := isDouble_of_repr n 0 hn (by norm_num) (by norm_num)
  simpa using this

/-- A non-negative binary64 value is `n * 2 ^ j` with `n < 2 ^ 53` and `j ≥ -1074`. -/
theorem isDouble_repr {x : ℚ} (hd : isDouble x) (h0 : 0 ≤ x) :
    ∃ n : ℕ, ∃ j : ℤ, n < 2 ^ 53 ∧ -1074 ≤ j ∧ x = (n : ℚ) * (2 : ℚ) ^ j := by
  unfold isDouble at hd
  rw [abs_of_nonneg h0] at hd
  have hq : ((x / (2 : ℚ) ^ ulpExp x).num : ℚ) = x / (2 : ℚ) ^ ulpExp x :=
    Rat.coe_int_num_of_den_eq_one hd.2
  have hq0 : (0 : ℚ) ≤ x / (2 : ℚ) ^ ulpExp x := div_nonneg h0 (two_zpow_pos _).le
  have hnum0 : 0 ≤ (x / (2 : ℚ) ^ ulpExp x).num := Rat.num_nonneg.2 hq0
  refine ⟨(x / (2 : ℚ) ^ ulpExp x).num.toNat, ulpExp x, ?_, ulpExp_ge x, ?_⟩
  · have hlt : x / (2 : ℚ) ^ ulpExp x < (2 : ℚ) ^ (53 : ℤ) := by
      rw [div_lt_iff₀ (two_zpow_pos _), ← zpow_add₀ (by norm_num : (2 : ℚ) ≠ 0)]
      have h1 := lt_two_zpow_log2 x
      have h2 : (2 : ℚ) ^ (Int.log 2 x + 1) ≤ (2 : ℚ) ^ (53 + ulpExp x) := by
        apply zpow_le_zpow_right₀ (by norm_num)
        have := ulpExp_ge_log x
        omega
      linarith
    have hcast : (((x / (2 : ℚ) ^ ulpExp x).num.toNat : ℕ) : ℚ) = x / (2 : ℚ) ^ ulpExp x := by
      rw [← hq]
      have : (((x / (2 : ℚ) ^ ulpExp x).num.toNat : ℕ) : ℤ) = (x / (2 : ℚ) ^ ulpExp x).num :=
        Int.toNat_of_nonneg hnum0
      exact_mod_cast this
    have : (((x / (2 : ℚ) ^ ulpExp x).num.toNat : ℕ) : ℚ) < (2 : ℚ) ^ (53 : ℕ) := by
      rw [hcast, ← zpow_natCast]
      exact hlt
    exact_mod_cast this
  · have hcast : (((x / (2 : ℚ) ^ ulpExp x).num.toNat : ℕ) : ℚ) = x / (2 : ℚ) ^ ulpExp x := by
      rw [← hq]
      have : (((x / (2 : ℚ) ^ ulpExp x).num.toNat : ℕ) : ℤ) = (x / (2 : ℚ) ^ ulpExp x).num :=
        Int.toNat_of_nonneg hnum0
      exact_mod_cast this
    rw [hcast]
    exact (div_mul_cancel₀ _ (two_zpow_pos _).ne').symm

theorem two_zpow_neg_nat (e : ℤ) (h : e ≤ 0) :
    ((2 : ℚ) ^ e)⁻¹ = (((2 : ℤ) ^ (-e).toNat : ℤ) : ℚ) := by
  have := two_zpow_sub_nat 0 e h
  simpa using this

theorem two_zpow_le_of_le {a b : ℤ} (h : a ≤ b) : (2 : ℚ) ^ a ≤ (2 : ℚ) ^ b :=
  zpow_le_zpow_right₀ (by norm_num) h

theorem pos_int_cast_ge_one {D : ℚ} {Z : ℤ} (h : D = (Z : ℚ)) (hD : 0 < D) : 1 ≤ D := by
  rw [h] at hD ⊢
  have : 0 < Z := by exact_mod_cast hD
  have : 1 ≤ Z := by omega
  exact_mod_cast this

/-- Below a multiple of 100 the nearest binary64 value is further away than
fifty units in the last place of the quotient by 100. -/
theorem gap_below (n : ℕ) (j : ℤ) (N : ℤ) (hN : 0 ≤ N)
    (hlt : (n : ℚ) * (2 : ℚ) ^ j < 100 * ((N : ℚ) + 1)) (e : ℤ) (he36 : e ≤ -36)
    (he : 64 ≤ (n : ℚ) * (2 : ℚ) ^ j → j < 0 → e ≤ j - 6) :
    50 * (2 : ℚ) ^ e < 100 * ((N : ℚ) + 1) - (n : ℚ) * (2 : ℚ) ^ j := by
  have hP : (2 : ℚ) ^ e ≤ (2 : ℚ) ^ (-36 : ℤ) := two_zpow_le_of_le he36
  have hP36 : (50 : ℚ) * (2 : ℚ) ^ (-36 : ℤ) < 1 := by norm_num
  have hNq : (0 : ℚ) ≤ (N : ℚ) := by exact_mod_cast hN
  have hD : (0 : ℚ) < 100 * ((N : ℚ) + 1) - (n : ℚ) * (2 : ℚ) ^ j := by linarith
  rcases le_or_lt 0 j with hj0 | hjneg
  · -- the dividend is an integer
    obtain ⟨k, hk⟩ := Int.eq_ofNat_of_zero_le hj0
    have hint : 100 * ((N : ℚ) + 1) - (n : ℚ) * (2 : ℚ) ^ j =
        ((100 * (N + 1) - (n : ℤ) * (2 : ℤ) ^ k : ℤ) : ℚ) := by
      rw [hk, zpow_natCast]
      push_cast
      ring
    have := pos_int_cast_ge_one hint hD
    linarith
  · rcases lt_or_le ((n : ℚ) * (2 : ℚ) ^ j) 64 with hsmall | hbig
    · linarith
    · have hej := he hbig hjneg
      have hPj : (2 : ℚ) ^ e ≤ (2 : ℚ) ^ (j - 6) := two_zpow_le_of_le hej
      have hsplit : (2 : ℚ) ^ (j - 6) = (2 : ℚ) ^ j / 64 := by
        rw [zpow_sub₀ (by norm_num : (2 : ℚ) ≠ 0)]
        norm_num
      have hinv := two_zpow_neg_nat j hjneg.le
      have hint : (100 * ((N : ℚ) + 1) - (n : ℚ) * (2 : ℚ) ^ j) / (2 : ℚ) ^ j =
          ((100 * (N + 1) * (2 : ℤ) ^ (-j).toNat - (n : ℤ) : ℤ) : ℚ) := by
        rw [div_eq_mul_inv, hinv]
        push_cast
        have hne : (2 : ℚ) ^ j ≠ 0 := (two_zpow_pos j).ne'
        have h1 : (2 : ℚ) ^ j * (2 : ℚ) ^ (-j).toNat = 1 := by
          have := hinv
          push_cast at this
          rw [← this]
          exact mul_inv_cancel₀ hne
        linear_combination (-(n : ℚ)) * h1
      have hDj : (0 : ℚ) < (100 * ((N : ℚ) + 1) - (n : ℚ) * (2 : ℚ) ^ j) / (2 : ℚ) ^ j :=
        div_pos hD (two_zpow_pos j)
      have hge := pos_int_cast_ge_one hint hDj
      rw [le_div_iff₀ (two_zpow_pos j)] at hge
      have hjpos := two_zpow_pos j
      rw [hsplit] at hPj
      linarith

/-- Dividing a binary64 value of at most `100 * 65536` by one hundred and
rounding the quotient does not change its integer part. -/
theorem floor_round64_div_100 (n : ℕ) (j : ℤ) (hn : n < 2 ^ 53) (hj : -1074 ≤ j)
    (ht : (n : ℚ) * (2 : ℚ) ^ j ≤ 6553600) :
    ⌊round64 ((n : ℚ) * (2 : ℚ) ^ j / 100)⌋ = ⌊(n : ℚ) * (2 : ℚ) ^ j / 100⌋ := by
  have ht0 : (0 : ℚ) ≤ (n : ℚ) * (2 : ℚ) ^ j := mul_nonneg (by positivity) (two_zpow_pos j).le
  have hx0 : (0 : ℚ) ≤ (n : ℚ) * (2 : ℚ) ^ j / 100 := by positivity
  unfold round64
  rw [if_neg (not_lt.2 hx0)]
  rcases Nat.eq_zero_or_pos n with hn0 | hnpos
  · subst hn0
    simp [round64Pos, roundHalfEven]
  · have htpos : (0 : ℚ) < (n : ℚ) * (2 : ℚ) ^ j :=
      mul_pos (by exact_mod_cast hnpos) (two_zpow_pos j)
    have hxpos : (0 : ℚ) < (n : ℚ) * (2 : ℚ) ^ j / 100 := by positivity
    have htlt : (n : ℚ) * (2 : ℚ) ^ j < (2 : ℚ) ^ (j + 53) := by
      rw [zpow_add₀ (by norm_num : (2 : ℚ) ≠ 0), mul_comm ((2 : ℚ) ^ j)]
      exact mul_lt_mul_of_pos_right (natCast_lt_two_zpow hn) (two_zpow_pos j)
    generalize hx : (n : ℚ) * (2 : ℚ) ^ j / 100 = x at *
    generalize he : ulpExp x = e
    have he36 : e ≤ -36 := by
      rw [← he]
      apply ulpExp_le hxpos (by norm_num)
      have : x ≤ 65536 := by rw [← hx]; linarith
      have : (2 : ℚ) ^ ((-36 : ℤ) + 53) = 131072 := by norm_num
      linarith
    have hbig : 64 ≤ (n : ℚ) * (2 : ℚ) ^ j → j < 0 → e ≤ j - 6 := by
      intro h64 _
      have hj46 : 6 < j + 53 := by
        have h1 : (2 : ℚ) ^ (6 : ℤ) < (2 : ℚ) ^ (j + 53) := by
          have : (2 : ℚ) ^ (6 : ℤ) = 64 := by norm_num
          linarith
        exact (zpow_lt_zpow_iff_right₀ (by norm_num : (1 : ℚ) < 2)).1 h1
      rw [← he]
      apply ulpExp_le hxpos (by omega)
      have h2 : (2 : ℚ) ^ (j - 6 + 53) = (2 : ℚ) ^ (j + 53) / 64 := by
        rw [show j - 6 + 53 = j + 53 - 6 by ring, zpow_sub₀ (by norm_num : (2 : ℚ) ≠ 0)]
        norm_num
      rw [h2, ← hx]
      linarith
    have hN0 : 0 ≤ ⌊x⌋ := Int.floor_nonneg.2 hx0
    have hxlt : x < (⌊x⌋ : ℚ) + 1 := Int.lt_floor_add_one x
    have h100 : (n : ℚ) * (2 : ℚ) ^ j = 100 * x := by rw [← hx]; ring
    have hgap := gap_below n j ⌊x⌋ hN0 (by linarith) e he36 hbig
    have hP := two_zpow_pos e
    have hinv := two_zpow_neg_nat e (by omega)
    unfold round64Pos
    rw [he, Int.floor_eq_iff]
    constructor
    · -- the integer part times the scale is an integer below the scaled value
      have hK : ((⌊x⌋ * (2 : ℤ) ^ (-e).toNat : ℤ) : ℚ) ≤ x / (2 : ℚ) ^ e := by
        push_cast
        rw [div_eq_mul_inv, hinv]
        push_cast
        exact mul_le_mul_of_nonneg_right (Int.floor_le x) (by positivity)
      have h1 := Int.le_floor.2 hK
      have h2 := floor_le_roundHalfEven (x / (2 : ℚ) ^ e)
      have h3 : ((⌊x⌋ * (2 : ℤ) ^ (-e).toNat : ℤ) : ℚ) ≤ (roundHalfEven (x / (2 : ℚ) ^ e) : ℚ) := by
        exact_mod_cast h1.trans h2
      have h4 : ((⌊x⌋ * (2 : ℤ) ^ (-e).toNat : ℤ) : ℚ) = (⌊x⌋ : ℚ) / (2 : ℚ) ^ e := by
        rw [div_eq_mul_inv, hinv]
        push_cast
        rfl
      rw [h4, div_le_iff₀ hP] at h3
      exact h3
    · have hM : x / (2 : ℚ) ^ e <
          (((⌊x⌋ + 1) * (2 : ℤ) ^ (-e).toNat - 1 : ℤ) : ℚ) + 1 / 2 := by
        have h4 : (((⌊x⌋ + 1) * (2 : ℤ) ^ (-e).toNat - 1 : ℤ) : ℚ) =
            ((⌊x⌋ : ℚ) + 1) / (2 : ℚ) ^ e - 1 := by
          rw [div_eq_mul_inv, hinv]
          push_cast
          rfl
        rw [h4, div_lt_iff₀ hP]
        have : (((⌊x⌋ : ℚ) + 1) / (2 : ℚ) ^ e - 1 + 1 / 2) * (2 : ℚ) ^ e =
            ((⌊x⌋ : ℚ) + 1) - (2 : ℚ) ^ e / 2 := by
          field_simp
          ring
        rw [this]
        linarith
      have hR := roundHalfEven_le_of_lt _ _ hM
      have hRq : (roundHalfEven (x / (2 : ℚ) ^ e) : ℚ) ≤
          ((⌊x⌋ : ℚ) + 1) / (2 : ℚ) ^ e - 1 := by
        have h4 : (((⌊x⌋ + 1) * (2 : ℤ) ^ (-e).toNat - 1 : ℤ) : ℚ) =
            ((⌊x⌋ : ℚ) + 1) / (2 : ℚ) ^ e - 1 := by
          rw [div_eq_mul_inv, hinv]
          push_cast
          rfl
        rw [← h4]
        exact_mod_cast hR
      have h5 : (roundHalfEven (x / (2 : ℚ) ^ e) : ℚ) * (2 : ℚ) ^ e ≤
          (((⌊x⌋ : ℚ) + 1) / (2 : ℚ) ^ e - 1) * (2 : ℚ) ^ e :=
        mul_le_mul_of_nonneg_right hRq hP.le
      have h6 : (((⌊x⌋ : ℚ) + 1) / (2 : ℚ) ^ e - 1) * (2 : ℚ) ^ e =
          (⌊x⌋ : ℚ) + 1 - (2 : ℚ) ^ e := by
        field_simp
      linarith

/-! ## Volume scaling -/

theorem PA_CLAMP_VOLUME_of_le {v : Nat} (h : v ≤ PA_VOLUME_NORM) : PA_CLAMP_VOLUME v = v := by
  unfold PA_CLAMP_VOLUME PA_VOLUME_MUTED PA_VOLUME_MAX
  unfold PA_VOLUME_NORM at h
  rw [if_neg (by omega), if_neg (by omega)]

/-- The scaling of `on_volume_changed` in binary64 arithmetic yields the
truncation of the exact quotient. -/
theorem scaled_volume_eq (s : gdouble) (hs : isDouble s) (h0 : 0 ≤ s) (h100 : s ≤ 100) :
    pa_volume_of_gdouble
        (gdouble_div (gdouble_mul s (gdouble_of_uint32 PA_VOLUME_NORM)) 100) =
      (⌊s * (PA_VOLUME_NORM : ℚ) / 100⌋).toNat ∧
    (⌊s * (PA_VOLUME_NORM : ℚ) / 100⌋).toNat ≤ PA_VOLUME_NORM := by
  obtain ⟨n, j, hn, hj, rfl⟩ := isDouble_repr hs h0
  have hnorm : ((PA_VOLUME_NORM : ℕ) : ℚ) = (2 : ℚ) ^ (16 : ℤ) := by
    norm_num [PA_VOLUME_NORM]
  have hmul : (n : ℚ) * (2 : ℚ) ^ j * (2 : ℚ) ^ (16 : ℤ) = (n : ℚ) * (2 : ℚ) ^ (j + 16) := by
    rw [mul_assoc, ← zpow_add₀ (by norm_num : (2 : ℚ) ≠ 0)]
  have hle : (n : ℚ) * (2 : ℚ) ^ (j + 16) ≤ 6553600 := by
    rw [← hmul]
    have : (2 : ℚ) ^ (16 : ℤ) = 65536 := by norm_num
    rw [this]
    linarith
  have hfl0 : 0 ≤ ⌊(n : ℚ) * (2 : ℚ) ^ (j + 16) / 100⌋ := by
    apply Int.floor_nonneg.2
    have := two_zpow_pos (j + 16)
    positivity
  have hfl1 : ⌊(n : ℚ) * (2 : ℚ) ^ (j + 16) / 100⌋ ≤ 65536 := by
    have h1 := Int.floor_le ((n : ℚ) * (2 : ℚ) ^ (j + 16) / 100)
    have h2 : (⌊(n : ℚ) * (2 : ℚ) ^ (j + 16) / 100⌋ : ℚ) ≤ ((65536 : ℤ) : ℚ) := by
      push_cast
      linarith
    exact_mod_cast h2
  unfold pa_volume_of_gdouble gdouble_div gdouble_mul gdouble_of_uint32
  rw [hnorm, hmul, round64_exact n (j + 16) hn (by omega),
    floor_round64_div_100 n (j + 16) hn (by omega) hle]
  constructor
  · apply Nat.mod_eq_of_lt
    omega
  · unfold PA_VOLUME_NORM
    omega

theorem on_volume_changed_sent (m : VolumeMixerPlugin) (info : SinkInputInfo) (s : gdouble)
    (hctx : m.pa_context = true) (hconn : m.connected = true)
    (hvalid : pa_channels_valid info.volume.channels = true)
    (hs : isDouble s) (h0 : 0 ≤ s) (h100 : s ≤ 100) :
    on_volume_changed m info s =
      some [Request.set_sink_input_volume info.index
        { channels := info.volume.channels
          values := List.replicate info.volume.channels
              (⌊s * (PA_VOLUME_NORM : ℚ) / 100⌋).toNat ++
            info.volume.values.drop info.volume.channels }] := by
  obtain ⟨hv, hle⟩ := scaled_volume_eq s hs h0 h100
  unfold on_volume_changed
  rw [hv]
  simp [hctx, hconn, pa_cvolume_set, hvalid, PA_CLAMP_VOLUME_of_le hle]

theorem on_volume_changed_returns (m : VolumeMixerPlugin) (info : SinkInputInfo) (s : gdouble)
    (reqs : List Request) (h : on_volume_changed m info s = some reqs)
    (hctx : m.pa_context = true) (hconn : m.connected = true) :
    pa_channels_valid info.volume.channels = true := by
  by_contra hv
  simp [on_volume_changed, hctx, hconn, pa_cvolume_set, hv] at h

/-- C3: when the connection is ready, for every cached entry and every
binary64 slider value `s` in `[0, 100]`, whatever `on_volume_changed` sends is
one volume-set request for the entry's own index whose vector has the channel
count of the cached vector and every channel equal to the truncation of
`s * PA_VOLUME_NORM / 100`; and it does send it whenever the cached channel
count is a valid one (between 1 and `PA_CHANNELS_MAX`, as `pa_cvolume_set`
asserts).  Slider value 0 then gives 0 on all channels, 100 gives
`PA_VOLUME_NORM = 65536` and 50 gives `PA_VOLUME_NORM / 2 = 32768`. -/
theorem on_volume_changed_scaling (m : VolumeMixerPlugin) (info : SinkInputInfo) (s : gdouble)
    (hctx : m.pa_context = true) (hconn : m.connected = true)
    (hs : isDouble s) (h0 : 0 ≤ s) (h100 : s ≤ 100) :
    (∀ reqs, on_volume_changed m info s = some reqs →
      ∃ vol, reqs = [Request.set_sink_input_volume info.index vol] ∧
        vol.channels = info.volume.channels ∧
        vol.values.take vol.channels =
          List.replicate vol.channels (⌊s * (PA_VOLUME_NORM : ℚ) / 100⌋).toNat) ∧
    (pa_channels_valid info.volume.channels = true →
      (∃ vol, on_volume_changed m info s =
          some [Request.set_sink_input_volume info.index vol] ∧
        vol.channels = info.volume.channels ∧
        vol.values.take vol.channels =
          List.replicate vol.channels (⌊s * (PA_VOLUME_NORM : ℚ) / 100⌋).toNat) ∧
      (∃ vol, on_volume_changed m info 0 =
          some [Request.set_sink_input_volume info.index vol] ∧
        vol.channels = info.volume.channels ∧
        vol.values.take vol.channels = List.replicate vol.channels PA_VOLUME_MUTED) ∧
      (∃ vol, on_volume_changed m info 100 =
          some [Request.set_sink_input_volume info.index vol] ∧
        vol.channels = info.volume.channels ∧
        vol.values.take vol.channels = List.replicate vol.channels PA_VOLUME_NORM) ∧
      (∃ vol, on_volume_changed m info 50 =
          some [Request.set_sink_input_volume info.index vol] ∧
        vol.channels = info.volume.channels ∧
        vol.values.take vol.channels = List.replicate vol.channels (PA_VOLUME_NORM / 2))) ∧
    PA_VOLUME_NORM = 65536 ∧ PA_VOLUME_NORM / 2 = 32768 := by
  have hd0 : isDouble (0 : ℚ) := by simpa using isDouble_natCast 0 (by norm_num)
  have hd50 : isDouble (50 : ℚ) := by simpa using isDouble_natCast 50 (by norm_num)
  have hd100 : isDouble (100 : ℚ) := by simpa using isDouble_natCast 100 (by norm_num)
  have key : pa_channels_valid info.volume.channels = true →
      ∀ (x : gdouble) (v : Nat), isDouble x → 0 ≤ x → x ≤ 100 →
      (⌊x * (PA_VOLUME_NORM : ℚ) / 100⌋).toNat = v →
      ∃ vol, on_volume_changed m info x =
          some [Request.set_sink_input_volume info.index vol] ∧
        vol.channels = info.volume.channels ∧
        vol.values.take vol.channels = List.replicate vol.channels v := by
    intro hvalid x v hx hx0 hx100 hv
    refine ⟨_, on_volume_changed_sent m info x hctx hconn hvalid hx hx0 hx100, rfl, ?_⟩
    simp [hv]
  refine ⟨?_, ?_, rfl, rfl⟩
  · intro reqs hreq
    have hvalid := on_volume_changed_returns m info s reqs hreq hctx hconn
    obtain ⟨vol, h1, h2, h3⟩ := key hvalid s _ hs h0 h100 rfl
    rw [h1] at hreq
    exact ⟨vol, (Option.some.inj hreq).symm, h2, h3⟩
  · intro hvalid
    refine ⟨key hvalid s _ hs h0 h100 rfl, key hvalid 0 _ hd0 le_rfl (by norm_num) ?_,
      key hvalid 100 _ hd100 (by norm_num) le_rfl ?_,
      key hvalid 50 _ hd50 (by norm_num) (by norm_num) ?_⟩
    · have : (0 : ℚ) * ((PA_VOLUME_NORM : ℕ) : ℚ) / 100 = ((0 : ℤ) : ℚ) := by
        norm_num
      rw [this, Int.floor_intCast]
      rfl
    · have : (100 : ℚ) * ((PA_VOLUME_NORM : ℕ) : ℚ) / 100 = ((65536 : ℤ) : ℚ) := by
        norm_num [PA_VOLUME_NORM]
      rw [this, Int.floor_intCast]
      rfl
    · have : (50 : ℚ) * ((PA_VOLUME_NORM : ℕ) : ℚ) / 100 = ((32768 : ℤ) : ℚ) := by
        norm_num [PA_VOLUME_NORM]
      rw [this, Int.floor_intCast]
      rfl

/-- Instance of C3: the sample entry, slider at 25 and at 50. -/
theorem on_volume_changed_scaling_witness :
    (∃ vol, on_volume_changed sampleMixer sampleEntry 25 =
        some [Request.set_sink_input_volume sampleEntry.index vol] ∧
      vol.channels = sampleEntry.volume.channels ∧
      vol.values.take vol.channels =
        List.replicate vol.channels (⌊(25 : ℚ) * (PA_VOLUME_NORM : ℚ) / 100⌋).toNat) ∧
    (∃ vol, on_volume_changed sampleMixer sampleEntry 50 =
        some [Request.set_sink_input_volume sampleEntry.index vol] ∧
      vol.channels = sampleEntry.volume.channels ∧
      vol.values.take vol.channels = List.replicate vol.channels (PA_VOLUME_NORM / 2)) :=
  have h := (on_volume_changed_scaling sampleMixer sampleEntry 25 rfl rfl
    (by simpa using isDouble_natCast 25 (by norm_num)) (by norm_num) (by norm_num)).2.1
    (by decide)
  ⟨h.1, h.2.2.2⟩

/-! ## Slider preload and volume-set -/

theorem pa_cvolume_avg_uniform (a : pa_cvolume) (v : Nat)
    (hvalid : pa_channels_valid a.channels = true)
    (hsame : a.values.take a.channels = List.replicate a.channels v)
    (hv : v ≤ PA_VOLUME_NORM) : pa_cvolume_avg a = v := by
  have hpos : 0 < a.channels := by
    simp [pa_channels_valid] at hvalid
    exact hvalid.1
  have hlen : a.channels ≤ a.values.length := by
    have h := congrArg List.length hsame
    rw [List.length_take, List.length_replicate] at h
    omega
  have hall : (a.values.take a.channels).all (fun v => decide (v ≤ PA_VOLUME_MAX)) = true := by
    rw [hsame, List.all_eq_true]
    intro x hx
    rw [List.eq_of_mem_replicate hx]
    unfold PA_VOLUME_NORM at hv
    unfold PA_VOLUME_MAX
    simp
    omega
  have hval : pa_cvolume_valid a = true := by
    simp only [pa_cvolume_valid, hvalid, hall, Bool.and_true, Bool.true_and, decide_eq_true_eq]
    exact hlen
  unfold pa_cvolume_avg
  rw [if_pos hval, hsame, List.sum_replicate, smul_eq_mul]
  exact Nat.mul_div_cancel_left v hpos

theorem current_volume_uniform (info : SinkInputInfo) (v : Nat)
    (hvalid : pa_channels_valid info.volume.channels = true)
    (hsame : info.volume.values.take info.volume.channels =
      List.replicate info.volume.channels v)
    (hv : v ≤ PA_VOLUME_NORM) :
    current_volume info = ((v * 100 : ℕ) : ℚ) * (2 : ℚ) ^ (-16 : ℤ) := by
  have hv2 : v ≤ 65536 := hv
  unfold current_volume gdouble_div gdouble_mul gdouble_of_uint32
  rw [pa_cvolume_avg_uniform info.volume v hvalid hsame hv]
  have h1 : ((v : ℕ) : ℚ) * 100 = ((v * 100 : ℕ) : ℚ) := by push_cast; ring
  rw [h1, round64_natCast (v * 100) (by omega)]
  have h2 : ((v * 100 : ℕ) : ℚ) / ((PA_VOLUME_NORM : ℕ) : ℚ) =
      ((v * 100 : ℕ) : ℚ) * (2 : ℚ) ^ (-16 : ℤ) := by
    norm_num [PA_VOLUME_NORM]
    ring
  rw [h2, round64_exact (v * 100) (-16) (by omega) (by norm_num)]

/-- C10: for an entry with a valid channel count whose channels all hold the
same volume `v ≤ PA_VOLUME_NORM`, the slider is preloaded with exactly
`p = v * 100 / PA_VOLUME_NORM`, which lies in `[0, 100]` (so the range clamp
keeps it), and `on_volume_changed` fed with `p` sends, when the connection is
ready, one volume-set request whose vector is the cached vector itself: every
channel equals `v`. -/
theorem preload_then_set_keeps_volume (m : VolumeMixerPlugin) (info : SinkInputInfo) (v : Nat)
    (hctx : m.pa_context = true) (hconn : m.connected = true)
    (hvalid : pa_channels_valid info.volume.channels = true)
    (hsame : info.volume.values.take info.volume.channels =
      List.replicate info.volume.channels v)
    (hv : v ≤ PA_VOLUME_NORM) :
    current_volume info = (v : ℚ) * 100 / (PA_VOLUME_NORM : ℚ) ∧
    0 ≤ current_volume info ∧ current_volume info ≤ 100 ∧
    (∃ icon label,
      create_app_volume_slider info = Widget.column icon label (current_volume info) info) ∧
    on_volume_changed m info (current_volume info) =
      some [Request.set_sink_input_volume info.index info.volume] ∧
    info.volume.values.take info.volume.channels = List.replicate info.volume.channels v := by
  have hv2 : v ≤ 65536 := hv
  have hcur := current_volume_uniform info v hvalid hsame hv
  have hval : current_volume info = (v : ℚ) * 100 / (PA_VOLUME_NORM : ℚ) := by
    rw [hcur]
    norm_num [PA_VOLUME_NORM]
    ring
  have hq : ((v : ℕ) : ℚ) ≤ 65536 := by exact_mod_cast hv2
  have hq0 : (0 : ℚ) ≤ ((v : ℕ) : ℚ) := by positivity
  have hnorm : ((PA_VOLUME_NORM : ℕ) : ℚ) = 65536 := by norm_num [PA_VOLUME_NORM]
  have h0 : 0 ≤ current_volume info := by
    rw [hval, hnorm]; positivity
  have h100 : current_volume info ≤ 100 := by
    rw [hval, hnorm, div_le_iff₀ (by norm_num)]
    linarith
  have hclamp : gtk_range_set_value (current_volume info) = current_volume info := by
    unfold gtk_range_set_value
    rw [if_neg (not_lt.2 h0), if_neg (not_lt.2 h100)]
  refine ⟨hval, h0, h100, ⟨_, _, by rw [create_app_volume_slider, hclamp]⟩, ?_, hsame⟩
  have hsent : pa_volume_of_gdouble
      (gdouble_div (gdouble_mul (current_volume info) (gdouble_of_uint32 PA_VOLUME_NORM)) 100)
        = v := by
    unfold pa_volume_of_gdouble gdouble_div gdouble_mul gdouble_of_uint32
    have h1 : current_volume info * ((PA_VOLUME_NORM : ℕ) : ℚ) = ((v * 100 : ℕ) : ℚ) := by
      rw [hval, hnorm]
      push_cast
      field_simp
    rw [h1, round64_natCast (v * 100) (by omega)]
    have h2 : ((v * 100 : ℕ) : ℚ) / 100 = ((v : ℕ) : ℚ) := by
      push_cast
      field_simp
    rw [h2, round64_natCast v (by omega)]
    have h3 : ⌊((v : ℕ) : ℚ)⌋ = (v : ℤ) := by
      exact_mod_cast Int.floor_intCast (v : ℤ)
    rw [h3, Int.toNat_natCast]
    apply Nat.mod_eq_of_lt
    omega
  unfold on_volume_changed
  rw [hsent]
  simp only [hctx, hconn, Bool.not_true, Bool.or_self, Bool.false_eq_true, if_false,
    pa_cvolume_set, hvalid, if_true, PA_CLAMP_VOLUME_of_le hv]
  rw [← hsame, List.take_append_drop]

/-- Instance of C10: the sample entry, both channels at nominal volume. -/
theorem preload_then_set_keeps_volume_witness :
    current_volume sampleEntry = ((65536 : ℕ) : ℚ) * 100 / (PA_VOLUME_NORM : ℚ) ∧
    on_volume_changed sampleMixer sampleEntry (current_volume sampleEntry) =
      some [Request.set_sink_input_volume sampleEntry.index sampleEntry.volume] :=
  have h := preload_then_set_keeps_volume sampleMixer sampleEntry 65536 rfl rfl
    (by decide) (by decide) (by decide)
  ⟨h.1, h.2.2.2.2.1⟩

end VolumeMixer
